import Mathlib

/-!
Verification of the line-splitting core of `mysqldump_reformat.py`.

The embedding below models Python strings as `List Char`, the carried
`State` class as a two-field structure, and the body of `process_line`
as a left-to-right scan (`scanAux` iterating `processChar`) over the
indexed characters of the line.  The stream driver loop of
`process_file` (the blank-line / comment-line classification and the
state threading, stripped of its I/O and progress printing) is modelled
by `handle_line` and `process_file_lines`.  The `print` of the warning
for an unbalanced `)` is modelled by a `warnings` counter.
-/

/-- The `State` class of the script: quote flag and bracket count carried
between lines.  `brackets` is a Python `int`, hence `Int` here. -/
structure State where
  in_quotes : Bool
  brackets : Int
deriving Repr, DecidableEq

/-- Python slice `l[a:b]` for `0 ≤ a ≤ b` (the only form the script uses). -/
def pySlice (l : List Char) (a b : Nat) : List Char :=
  (l.drop a).take (b - a)

/-- The working values of the loop inside `process_line`: `brackets`,
`in_quotes`, `escaped`, the accumulated `processed_line` fragments,
`start`, plus a counter of printed unbalanced-`)` warnings. -/
structure LoopState where
  brackets : Int
  in_quotes : Bool
  escaped : Bool
  processed_line : List (List Char)
  start : Nat
  warnings : Nat
deriving Repr, DecidableEq

/-- The `if escaped: escaped = False` tail of the `(` and `)` branches. -/
def clearEsc (s : LoopState) : LoopState :=
  if s.escaped then { s with escaped := false } else s

/-- The `elif line[i] == '(':` branch body (without the escape clearing):
when not in quotes and `brackets == 0`, flush `line[start:i] + "\n"`
unless `i == 0`, set `start = i`; always increment `brackets` when not
in quotes. -/
def openBracket (line : List Char) (i : Nat) (s : LoopState) : LoopState :=
  if s.in_quotes = false then
    if s.brackets = 0 then
      if 0 < i then
        { s with processed_line := s.processed_line ++ [pySlice line s.start i ++ ['\n']],
                 start := i, brackets := s.brackets + 1 }
      else
        { s with start := i, brackets := s.brackets + 1 }
    else
      { s with brackets := s.brackets + 1 }
  else s

/-- The `elif line[i] == ')':` branch body (without the escape clearing):
decrement `brackets` when positive, otherwise print a warning (counted
here) and leave `brackets` unchanged. -/
def closeBracket (s : LoopState) : LoopState :=
  if s.in_quotes = false then
    if 0 < s.brackets then { s with brackets := s.brackets - 1 }
    else { s with warnings := s.warnings + 1 }
  else s

/-- One iteration of the `for i in range(len(line))` loop of
`process_line`, dispatching on `line[i] = c`. -/
def processChar (line : List Char) (i : Nat) (c : Char) (s : LoopState) : LoopState :=
  if c = '\\' then
    { s with escaped := !s.escaped }
  else if c = '\'' then
    (if s.escaped then { s with escaped := false }
     else { s with in_quotes := !s.in_quotes })
  else if c = '(' then
    clearEsc (openBracket line i s)
  else if c = ')' then
    clearEsc (closeBracket s)
  else if s.escaped then
    { s with escaped := false }
  else s

/-- The whole loop: `rest` is the remaining suffix `line.drop i`. -/
def scanAux (line : List Char) : List Char → Nat → LoopState → LoopState
  | [], _, s => s
  | c :: rest, i, s => scanAux line rest (i + 1) (processChar line i c s)

/-- The loop state at entry of `process_line`: working values seeded from
the previous `State`, `escaped = False`, empty fragment list, `start = 0`. -/
def initLoop (st : State) : LoopState :=
  ⟨st.brackets, st.in_quotes, false, [], 0, 0⟩

/-- Running the whole scan loop of `process_line` over a line. -/
def scanLine (line : List Char) (st : State) : LoopState :=
  scanAux line line 0 (initLoop st)

/-- `process_line(line, previous_state)`: returns the fragment list (the
scan's flushed fragments plus the remainder `line[start:]`) and the new
`State`. -/
def process_line (line : List Char) (previous_state : State) : List (List Char) × State :=
  let fin := scanLine line previous_state
  (fin.processed_line ++ [line.drop fin.start], ⟨fin.in_quotes, fin.brackets⟩)

/-- The per-line dispatch of the loop in `process_file`: a line of length
1 or a line starting with `--` is passed through with the state kept,
any other line goes through `process_line`. -/
def handle_line (line : List Char) (st : State) : List (List Char) × State :=
  if line.length = 1 then ([line], st)
  else if line.take 2 = ['-', '-'] then ([line], st)
  else process_line line st

/-- The loop of `process_file` over all input lines (I/O and progress
printing stripped): accumulated output lines and final threaded state. -/
def process_file_lines : List (List Char) → State → List (List Char) × State
  | [], st => ([], st)
  | l :: ls, st =>
    let r := handle_line l st
    let rec' := process_file_lines ls r.2
    (r.1 ++ rec'.1, rec'.2)

/-- Indices at which the scan makes a `brackets` transition from 0 to 1
(the 0→1 depth transitions of the spec), collected alongside the scan. -/
def transIndices (line : List Char) : List Char → Nat → LoopState → List Nat
  | [], _, _ => []
  | c :: rest, i, s =>
    (if s.brackets = 0 ∧ (processChar line i c s).brackets = 1 then [i] else [])
      ++ transIndices line rest (i + 1) (processChar line i c s)

/-- Claim C2 counterexample: with line 1 = `'abc` processed from
`{false, 0}` (ending, as the claim says, in `{true, 0}`), line 2 =
`def'(x)` does NOT yield the single fragment `def'(x)`: the quote closes
at the `'` of line 2, so the `(` does split the line. -/
theorem c2_counterexample :
    (process_line ['\'', 'a', 'b', 'c'] ⟨false, 0⟩).2 = ⟨true, 0⟩ ∧
    (process_line ['d', 'e', 'f', '\'', '(', 'x', ')'] ⟨true, 0⟩).1 ≠
      [['d', 'e', 'f', '\'', '(', 'x', ')']] := by
  decide

/-- Claim C2 (amended): line 1 = `'abc` from `{false, 0}` gives a single
fragment and state `{true, 0}`; line 2 = `def'(x)` from `{true, 0}` has
its quote closed by the `'`, so it splits before the `(`, producing the
fragments `def'` (with appended newline) and `(x)`, final state
`{false, 0}`. -/
theorem c2_amended :
    process_line ['\'', 'a', 'b', 'c'] ⟨false, 0⟩ =
      ([['\'', 'a', 'b', 'c']], ⟨true, 0⟩) ∧
    process_line ['d', 'e', 'f', '\'', '(', 'x', ')'] ⟨true, 0⟩ =
      ([['d', 'e', 'f', '\'', '\n'], ['(', 'x', ')']], ⟨false, 0⟩) := by
  decide

/-- Claim C4: an opening parenthesis inside quotes never flushes a
fragment (the general suppression), and concretely `a'(b'c(d)` from
`{false, 0}` splits only before the `(` at index 6, giving exactly the
fragments `a'(b'c` (with appended newline) and `(d)`. -/
theorem c4_quote_suppression (l : List Char) (i : Nat) (s : LoopState)
    (hq : s.in_quotes = true) :
    ((processChar l i '(' s).processed_line = s.processed_line ∧
     (processChar l i '(' s).start = s.start) ∧
    process_line ['a', '\'', '(', 'b', '\'', 'c', '(', 'd', ')'] ⟨false, 0⟩ =
      ([['a', '\'', '(', 'b', '\'', 'c', '\n'], ['(', 'd', ')']], ⟨false, 0⟩) := by
  refine ⟨?_, by decide⟩
  have h1 : openBracket l i s = s := by
    unfold openBracket
    rw [hq]
    simp
  unfold processChar clearEsc
  rw [if_neg (by decide), if_neg (by decide), if_pos rfl, h1]
  split <;> simp

/-- Claim C4 witness: the general part instantiated at a concrete
in-quotes loop state. -/
theorem c4_witness :
    (LoopState.in_quotes ⟨0, true, false, [], 0, 0⟩ = true) ∧
    (((processChar ['('] 0 '(' ⟨0, true, false, [], 0, 0⟩).processed_line =
        LoopState.processed_line ⟨0, true, false, [], 0, 0⟩ ∧
      (processChar ['('] 0 '(' ⟨0, true, false, [], 0, 0⟩).start =
        LoopState.start ⟨0, true, false, [], 0, 0⟩) ∧
     process_line ['a', '\'', '(', 'b', '\'', 'c', '(', 'd', ')'] ⟨false, 0⟩ =
       ([['a', '\'', '(', 'b', '\'', 'c', '\n'], ['(', 'd', ')']], ⟨false, 0⟩)) :=
  ⟨rfl, c4_quote_suppression ['('] 0 ⟨0, true, false, [], 0, 0⟩ rfl⟩

/-- Claim C5: on input `)(` from `{false, 0}` the leading `)` at depth 0
is non-fatal: exactly one warning is recorded, the scan continues and
still splits before the trailing `(`, and the resulting depth is 1
(in particular non-negative). -/
theorem c5_unbalanced_close :
    (scanLine [')', '('] ⟨false, 0⟩).warnings = 1 ∧
    process_line [')', '('] ⟨false, 0⟩ = ([[')', '\n'], ['(']], ⟨false, 1⟩) ∧
    0 ≤ (process_line [')', '('] ⟨false, 0⟩).2.brackets := by
  decide

/-- Claim C7: on input `\'(` from `{false, 0}` the backslash escapes the
quote (no quote toggle), so the `(` is unquoted at depth 0 and splits:
fragments `\'` (with appended newline) and `(`. -/
theorem c7_escaped_quote :
    process_line ['\\', '\'', '('] ⟨false, 0⟩ =
      ([['\\', '\'', '\n'], ['(']], ⟨false, 1⟩) := by
  decide

/-! ### Scan invariant

The invariant carried through `scanAux`: `start` never exceeds the
current index, `start` is 0 or a valid index of the line, the flushed
fragments with their appended newlines stripped concatenate to
`line[:start]`, and every flushed fragment is a slice of the line with
exactly one newline appended. -/

def ScanInv (line : List Char) (i : Nat) (s : LoopState) : Prop :=
  s.start ≤ i ∧
  (s.start = 0 ∨ s.start < line.length) ∧
  ((s.processed_line.map List.dropLast).flatten = line.take s.start) ∧
  (∀ f ∈ s.processed_line, ∃ a b, a ≤ b ∧ f = pySlice line a b ++ ['\n'])

theorem clearEsc_start (s : LoopState) : (clearEsc s).start = s.start := by
  unfold clearEsc; split <;> rfl

theorem clearEsc_processed (s : LoopState) :
    (clearEsc s).processed_line = s.processed_line := by
  unfold clearEsc; split <;> rfl

theorem clearEsc_brackets (s : LoopState) : (clearEsc s).brackets = s.brackets := by
  unfold clearEsc; split <;> rfl

theorem clearEsc_warnings (s : LoopState) : (clearEsc s).warnings = s.warnings := by
  unfold clearEsc; split <;> rfl

theorem closeBracket_start (s : LoopState) : (closeBracket s).start = s.start := by
  unfold closeBracket; split <;> [skip; rfl]; split <;> rfl

theorem closeBracket_processed (s : LoopState) :
    (closeBracket s).processed_line = s.processed_line := by
  unfold closeBracket; split <;> [skip; rfl]; split <;> rfl

/-- Where `openBracket` can touch `start` and `processed_line`: either it
leaves both unchanged, or it flushes `line[start:i] + '\n'` and rebinds
`start := i` (only possible with `0 < i`), or `i = 0` and it rebinds
`start := 0` without flushing. -/
theorem openBracket_frag (line : List Char) (i : Nat) (s : LoopState) :
    ((openBracket line i s).start = s.start ∧
     (openBracket line i s).processed_line = s.processed_line) ∨
    (0 < i ∧ (openBracket line i s).start = i ∧
     (openBracket line i s).processed_line =
       s.processed_line ++ [pySlice line s.start i ++ ['\n']]) ∨
    (i = 0 ∧ (openBracket line i s).start = 0 ∧
     (openBracket line i s).processed_line = s.processed_line) := by
  unfold openBracket
  split
  · split
    · split
      · rename_i hi
        exact Or.inr (Or.inl ⟨hi, rfl, rfl⟩)
      · rename_i hi
        exact Or.inr (Or.inr ⟨Nat.eq_zero_of_not_pos hi, Nat.eq_zero_of_not_pos hi ▸ rfl, rfl⟩)
    · exact Or.inl ⟨rfl, rfl⟩
  · exact Or.inl ⟨rfl, rfl⟩

/-- Where `processChar` can touch `start` and `processed_line`: same
trichotomy as `openBracket_frag` (all other branches leave both alone). -/
theorem processChar_frag (line : List Char) (i : Nat) (c : Char) (s : LoopState) :
    ((processChar line i c s).start = s.start ∧
     (processChar line i c s).processed_line = s.processed_line) ∨
    (0 < i ∧ (processChar line i c s).start = i ∧
     (processChar line i c s).processed_line =
       s.processed_line ++ [pySlice line s.start i ++ ['\n']]) ∨
    (i = 0 ∧ (processChar line i c s).start = 0 ∧
     (processChar line i c s).processed_line = s.processed_line) := by
  unfold processChar
  split
  · exact Or.inl ⟨rfl, rfl⟩
  · split
    · split <;> exact Or.inl ⟨rfl, rfl⟩
    · split
      · rcases openBracket_frag line i s with h | h | h
        · exact Or.inl ⟨(clearEsc_start _).trans h.1, (clearEsc_processed _).trans h.2⟩
        · exact Or.inr (Or.inl ⟨h.1, (clearEsc_start _).trans h.2.1,
            (clearEsc_processed _).trans h.2.2⟩)
        · exact Or.inr (Or.inr ⟨h.1, (clearEsc_start _).trans h.2.1,
            (clearEsc_processed _).trans h.2.2⟩)
      · split
        · exact Or.inl ⟨(clearEsc_start _).trans (closeBracket_start _),
            (clearEsc_processed _).trans (closeBracket_processed _)⟩
        · split <;> exact Or.inl ⟨rfl, rfl⟩

theorem take_append_pySlice (l : List Char) (a b : Nat) (h : a ≤ b) :
    l.take a ++ pySlice l a b = l.take b := by
  unfold pySlice
  rw [← List.take_add, Nat.add_sub_cancel' h]

/-- One scan step preserves the invariant (at the next index), provided
the current index is a valid position in the line. -/
theorem processChar_inv (line : List Char) (i : Nat) (c : Char) (s : LoopState)
    (hi : i < line.length) (h : ScanInv line i s) :
    ScanInv line (i + 1) (processChar line i c s) := by
  obtain ⟨h1, h2, h3, h4⟩ := h
  rcases processChar_frag line i c s with hf | hf | hf
  · exact ⟨hf.1 ▸ Nat.le_succ_of_le h1, hf.1 ▸ h2, hf.1 ▸ hf.2 ▸ h3,
      hf.2 ▸ h4⟩
  · obtain ⟨hpos, hst, hpl⟩ := hf
    refine ⟨?_, ?_, ?_, ?_⟩
    · rw [hst]; exact Nat.le_succ i
    · rw [hst]; exact Or.inr hi
    · rw [hst, hpl, List.map_append, List.flatten_append, h3]
      simp only [List.map_cons, List.map_nil, List.dropLast_concat, List.flatten]
      rw [List.append_nil, take_append_pySlice line s.start i h1]
    · rw [hpl]
      intro f hfm
      rcases List.mem_append.mp hfm with hm | hm
      · exact h4 f hm
      · exact ⟨s.start, i, h1, List.mem_singleton.mp hm⟩
  · obtain ⟨hzero, hst, hpl⟩ := hf
    have hs0 : s.start = 0 := Nat.le_antisymm (hzero ▸ h1) (Nat.zero_le _)
    refine ⟨?_, ?_, ?_, ?_⟩
    · rw [hst]; exact Nat.zero_le _
    · exact Or.inl hst
    · rw [hst, hpl, h3, hs0]
    · rw [hpl]; exact h4

/-- The whole scan preserves the invariant, ending at `line.length`. -/
theorem scanAux_inv (line : List Char) :
    ∀ (rest : List Char) (i : Nat) (s : LoopState),
      line.drop i = rest → ScanInv line i s →
      ScanInv line line.length (scanAux line rest i s) := by
  intro rest
  induction rest with
  | nil =>
    intro i s _ h
    obtain ⟨_, h2, h3, h4⟩ := h
    have : s.start ≤ line.length := by
      rcases h2 with h2 | h2
      · exact h2 ▸ Nat.zero_le _
      · exact Nat.le_of_lt h2
    exact ⟨this, h2, h3, h4⟩
  | cons c rest ih =>
    intro i s hdrop h
    have hi : i < line.length := by
      by_contra hlt
      rw [List.drop_eq_nil_of_le (Nat.le_of_not_lt hlt)] at hdrop
      exact List.noConfusion hdrop
    have hdrop' : line.drop (i + 1) = rest := by
      have := List.drop_drop 1 i line
      rw [hdrop] at this
      exact this.symm
    exact ih (i + 1) (processChar line i c s) hdrop'
      (processChar_inv line i c s hi h)

/-- The invariant holds for the final loop state of `process_line`. -/
theorem scanLine_inv (line : List Char) (st : State) :
    ScanInv line line.length (scanLine line st) :=
  scanAux_inv line line 0 (initLoop st) (List.drop_zero line)
    ⟨Nat.zero_le 0, Or.inl rfl, rfl, by intro f hf; exact absurd hf (List.not_mem_nil f)⟩

/-! ### Bracket-count lemmas -/

theorem openBracket_brackets_cases (line : List Char) (i : Nat) (s : LoopState) :
    (openBracket line i s).brackets = s.brackets + 1 ∨
    (openBracket line i s).brackets = s.brackets := by
  unfold openBracket
  split_ifs with h1 h2 h3
  · exact Or.inl rfl
  · exact Or.inl rfl
  · exact Or.inl rfl
  · exact Or.inr rfl

theorem closeBracket_brackets_cases (s : LoopState) :
    (0 < s.brackets ∧ (closeBracket s).brackets = s.brackets - 1) ∨
    (closeBracket s).brackets = s.brackets := by
  unfold closeBracket
  split_ifs with h1 h2
  · exact Or.inl ⟨h2, rfl⟩
  · exact Or.inr rfl
  · exact Or.inr rfl

theorem processChar_brackets_nonneg (line : List Char) (i : Nat) (c : Char)
    (s : LoopState) (h : 0 ≤ s.brackets) :
    0 ≤ (processChar line i c s).brackets := by
  unfold processChar
  split
  · exact h
  · split
    · split <;> exact h
    · split
      · rw [clearEsc_brackets]
        rcases openBracket_brackets_cases line i s with hc | hc <;> omega
      · split
        · rw [clearEsc_brackets]
          rcases closeBracket_brackets_cases s with hc | hc <;> omega
        · split <;> exact h

theorem scanAux_brackets_nonneg (line : List Char) :
    ∀ (rest : List Char) (i : Nat) (s : LoopState), 0 ≤ s.brackets →
      0 ≤ (scanAux line rest i s).brackets := by
  intro rest
  induction rest with
  | nil => intro i s h; exact h
  | cons c rest ih =>
    intro i s h
    exact ih (i + 1) _ (processChar_brackets_nonneg line i c s h)

theorem handle_line_brackets_nonneg (line : List Char) (st : State)
    (h : 0 ≤ st.brackets) : 0 ≤ (handle_line line st).2.brackets := by
  unfold handle_line
  split
  · exact h
  · split
    · exact h
    · exact scanAux_brackets_nonneg line line 0 (initLoop st) h

theorem process_file_lines_brackets_nonneg :
    ∀ (lines : List (List Char)) (st : State), 0 ≤ st.brackets →
      0 ≤ (process_file_lines lines st).2.brackets := by
  intro lines
  induction lines with
  | nil => intro st h; exact h
  | cons l ls ih =>
    intro st h
    exact ih _ (handle_line_brackets_nonneg l st h)

theorem processChar_close_at_zero (line : List Char) (i : Nat) (s : LoopState)
    (h : s.brackets = 0) : (processChar line i ')' s).brackets = 0 := by
  unfold processChar
  rw [if_neg (by decide), if_neg (by decide), if_neg (by decide), if_pos rfl,
    clearEsc_brackets]
  unfold closeBracket
  split
  · split
    · rename_i hpos
      exact absurd hpos (by omega)
    · exact h
  · exact h

/-! ### Claim theorems (round trip, invariants, fragment shape, driver) -/

/-- Claim C1: for every input line and every incoming scan state, every
non-final fragment returned by `process_line` ends in the appended
newline, and concatenating the fragments with that appended newline
stripped from each non-final fragment reproduces the line exactly. -/
theorem c1_round_trip (line : List Char) (st : State) :
    (∀ f ∈ (process_line line st).1.dropLast, f.getLast? = some '\n') ∧
    ((process_line line st).1.dropLast.map List.dropLast).flatten ++
      (process_line line st).1.getLastD [] = line := by
  obtain ⟨h1, h2, h3, h4⟩ := scanLine_inv line st
  have hfrags : (process_line line st).1 =
      (scanLine line st).processed_line ++ [line.drop (scanLine line st).start] := rfl
  rw [hfrags, List.dropLast_concat, List.getLastD_concat]
  refine ⟨?_, ?_⟩
  · intro f hf
    obtain ⟨a, b, hab, hfe⟩ := h4 f hf
    rw [hfe]
    exact List.getLast?_concat _
  · rw [h3, List.take_append_drop]

/-- Claim C6: bracket depth stays non-negative: `process_line` and the
whole driver loop preserve `0 ≤ brackets`, and a `)` scanned while the
count is 0 leaves the count at 0. -/
theorem c6_depth_nonneg (line : List Char) (lines : List (List Char)) (st : State)
    (i : Nat) (s : LoopState) (h : 0 ≤ st.brackets) (h0 : s.brackets = 0) :
    0 ≤ (process_line line st).2.brackets ∧
    0 ≤ (process_file_lines lines st).2.brackets ∧
    (processChar line i ')' s).brackets = 0 :=
  ⟨scanAux_brackets_nonneg line line 0 (initLoop st) h,
   process_file_lines_brackets_nonneg lines st h,
   processChar_close_at_zero line i s h0⟩

/-- Claim C6 witness: instantiated at the line `)`, the stream `[)]` and
the initial state. -/
theorem c6_witness :
    ((0 : Int) ≤ State.brackets ⟨false, 0⟩ ∧
     LoopState.brackets ⟨0, false, false, [], 0, 0⟩ = 0) ∧
    (0 ≤ (process_line [')'] ⟨false, 0⟩).2.brackets ∧
     0 ≤ (process_file_lines [[')']] ⟨false, 0⟩).2.brackets ∧
     (processChar [')'] 0 ')' ⟨0, false, false, [], 0, 0⟩).brackets = 0) :=
  ⟨⟨by decide, by decide⟩,
   c6_depth_nonneg [')'] [[')']] ⟨false, 0⟩ 0 ⟨0, false, false, [], 0, 0⟩
     (by decide) (by decide)⟩

/-- Claim C10: for every non-empty line and every state, `process_line`
returns at least one fragment, every fragment is non-empty, every
non-final fragment is a slice of the line with exactly one newline
appended, and the final fragment is a verbatim suffix of the line (no
appended newline). -/
theorem c10_fragment_shape (line : List Char) (st : State) (h : line ≠ []) :
    (process_line line st).1 ≠ [] ∧
    (∀ f ∈ (process_line line st).1, f ≠ []) ∧
    (∀ f ∈ (process_line line st).1.dropLast,
      ∃ a b, a ≤ b ∧ f = pySlice line a b ++ ['\n']) ∧
    (∃ a, a < line.length ∧ (process_line line st).1.getLastD [] = line.drop a) := by
  obtain ⟨h1, h2, h3, h4⟩ := scanLine_inv line st
  have hstart : (scanLine line st).start < line.length := by
    rcases h2 with h2 | h2
    · rw [h2]
      exact List.length_pos.mpr h
    · exact h2
  have hfrags : (process_line line st).1 =
      (scanLine line st).processed_line ++ [line.drop (scanLine line st).start] := rfl
  refine ⟨?_, ?_, ?_, ?_⟩
  · rw [hfrags]
    simp
  · rw [hfrags]
    intro f hf
    rcases List.mem_append.mp hf with hm | hm
    · obtain ⟨a, b, hab, hfe⟩ := h4 f hm
      rw [hfe]
      simp
    · rw [List.mem_singleton.mp hm]
      intro hnil
      exact absurd (List.drop_eq_nil_iff.mp hnil) (Nat.not_le_of_lt hstart)
  · rw [hfrags, List.dropLast_concat]
    exact h4
  · exact ⟨(scanLine line st).start, hstart, by rw [hfrags, List.getLastD_concat]⟩

/-- Claim C10 witness: instantiated at the line `(a)(` and the initial
state. -/
theorem c10_witness :
    ((['(', 'a', ')', '('] : List Char) ≠ []) ∧
    ((process_line ['(', 'a', ')', '('] ⟨false, 0⟩).1 ≠ [] ∧
     (∀ f ∈ (process_line ['(', 'a', ')', '('] ⟨false, 0⟩).1, f ≠ []) ∧
     (∀ f ∈ (process_line ['(', 'a', ')', '('] ⟨false, 0⟩).1.dropLast,
       ∃ a b, a ≤ b ∧ f = pySlice ['(', 'a', ')', '('] a b ++ ['\n']) ∧
     (∃ a, a < (['(', 'a', ')', '('] : List Char).length ∧
       (process_line ['(', 'a', ')', '('] ⟨false, 0⟩).1.getLastD [] =
         (['(', 'a', ')', '('] : List Char).drop a)) :=
  ⟨by decide, c10_fragment_shape ['(', 'a', ')', '('] ⟨false, 0⟩ (by decide)⟩

/-! ### Driver classification and no-split claims -/

/-- Claim C3 counterexample: the single-character line `(` does not
consist solely of a line terminator and is not a comment, yet the driver
(whose test is `len(line) == 1`) passes it through with the state kept,
while `process_line` would have returned bracket depth 1. -/
theorem c3_counterexample :
    (['('] : List Char) ≠ ['\n'] ∧
    (['('] : List Char).take 2 ≠ ['-', '-'] ∧
    (handle_line ['('] ⟨false, 0⟩).2 = ⟨false, 0⟩ ∧
    (process_line ['('] ⟨false, 0⟩).2 = ⟨false, 1⟩ ∧
    (handle_line ['('] ⟨false, 0⟩).2 ≠ (process_line ['('] ⟨false, 0⟩).2 := by
  decide

/-- Claim C3 (amended): for every line whose length is not 1 (the code's
actual test for an empty line) and whose first two characters are not
`--`, the driver invokes `process_line` with the current state, emits
exactly its fragments in order, and adopts its returned state. -/
theorem c3_driver_processes (line : List Char) (st : State)
    (h1 : line.length ≠ 1) (h2 : line.take 2 ≠ ['-', '-']) :
    handle_line line st = process_line line st := by
  unfold handle_line
  rw [if_neg h1, if_neg h2]

/-- Claim C3 witness: instantiated at the line `(x`. -/
theorem c3_witness :
    ((['(', 'x'] : List Char).length ≠ 1 ∧
     (['(', 'x'] : List Char).take 2 ≠ ['-', '-']) ∧
    handle_line ['(', 'x'] ⟨false, 0⟩ = process_line ['(', 'x'] ⟨false, 0⟩ :=
  ⟨⟨by decide, by decide⟩, c3_driver_processes ['(', 'x'] ⟨false, 0⟩ (by decide) (by decide)⟩

/-- Claim C8: a comment line (first two characters `--`) or a blank line
(a bare newline) leaves the threaded state unchanged, whatever quote or
depth context the incoming state carries. -/
theorem c8_passthrough_state (line : List Char) (st : State)
    (h : line.take 2 = ['-', '-'] ∨ line = ['\n']) :
    (handle_line line st).2 = st := by
  unfold handle_line
  by_cases hl : line.length = 1
  · rw [if_pos hl]
  · rw [if_neg hl]
    rcases h with h | h
    · rw [if_pos h]
    · exact absurd (by rw [h] ; rfl : line.length = 1) hl

/-- Claim C8 witness: instantiated at the comment line `-- n` and a state
with an open quote and open brackets. -/
theorem c8_witness :
    ((['-', '-', ' ', 'n'] : List Char).take 2 = ['-', '-'] ∨
     (['-', '-', ' ', 'n'] : List Char) = ['\n']) ∧
    (handle_line ['-', '-', ' ', 'n'] ⟨true, 2⟩).2 = ⟨true, 2⟩ :=
  ⟨Or.inl (by decide),
   c8_passthrough_state ['-', '-', ' ', 'n'] ⟨true, 2⟩ (Or.inl (by decide))⟩

/-- A scan step either keeps `start` and `processed_line`, or it is a
0→1 bracket transition. -/
theorem openBracket_trans_of_change (line : List Char) (i : Nat) (s : LoopState) :
    ((openBracket line i s).start = s.start ∧
     (openBracket line i s).processed_line = s.processed_line) ∨
    (s.brackets = 0 ∧ (openBracket line i s).brackets = s.brackets + 1) := by
  unfold openBracket
  split_ifs with h1 h2 h3
  · exact Or.inr ⟨h2, rfl⟩
  · exact Or.inr ⟨h2, rfl⟩
  · exact Or.inl ⟨rfl, rfl⟩
  · exact Or.inl ⟨rfl, rfl⟩

theorem processChar_trans_of_change (line : List Char) (i : Nat) (c : Char)
    (s : LoopState) :
    ((processChar line i c s).start = s.start ∧
     (processChar line i c s).processed_line = s.processed_line) ∨
    (s.brackets = 0 ∧ (processChar line i c s).brackets = 1) := by
  unfold processChar
  split
  · exact Or.inl ⟨rfl, rfl⟩
  · split
    · split <;> exact Or.inl ⟨rfl, rfl⟩
    · split
      · rcases openBracket_trans_of_change line i s with h | h
        · exact Or.inl ⟨(clearEsc_start _).trans h.1, (clearEsc_processed _).trans h.2⟩
        · refine Or.inr ⟨h.1, ?_⟩
          rw [clearEsc_brackets, h.2, h.1]
          exact Int.zero_add 1
      · split
        · exact Or.inl ⟨(clearEsc_start _).trans (closeBracket_start _),
            (clearEsc_processed _).trans (closeBracket_processed _)⟩
        · split <;> exact Or.inl ⟨rfl, rfl⟩

/-- If every 0→1 bracket transition of the scan happens at index 0, the
scan flushes nothing and `start` stays 0. -/
theorem scanAux_no_pos_trans (line : List Char) :
    ∀ (rest : List Char) (i : Nat) (s : LoopState),
      (∀ j ∈ transIndices line rest i s, j = 0) → s.start = 0 →
      (scanAux line rest i s).processed_line = s.processed_line ∧
      (scanAux line rest i s).start = 0 := by
  intro rest
  induction rest with
  | nil =>
    intro i s _ hs
    exact ⟨rfl, hs⟩
  | cons c rest ih =>
    intro i s htr hs
    have htail : ∀ j ∈ transIndices line rest (i + 1) (processChar line i c s), j = 0 := by
      intro j hj
      apply htr
      unfold transIndices
      exact List.mem_append.mpr (Or.inr hj)
    have hkeep : (processChar line i c s).processed_line = s.processed_line ∧
        (processChar line i c s).start = 0 := by
      rcases processChar_trans_of_change line i c s with h | h
      · exact ⟨h.2, h.1.trans hs⟩
      · have hi0 : i = 0 := by
          apply htr
          unfold transIndices
          refine List.mem_append.mpr (Or.inl ?_)
          rw [if_pos h]
          exact List.mem_singleton.mpr rfl
        rcases processChar_frag line i c s with hf | hf | hf
        · exact ⟨hf.2, hf.1.trans hs⟩
        · rw [hi0] at hf
          exact absurd hf.1 (Nat.lt_irrefl 0)
        · exact ⟨hf.2.2, hf.2.1⟩
    have hrec := ih (i + 1) (processChar line i c s) htail hkeep.2
    exact ⟨hrec.1.trans hkeep.1, hrec.2⟩

/-- Claim C9: if the bracket depth never makes a 0→1 transition at an
index greater than 0 during the scan of a line, `process_line` returns
exactly one fragment, and it is the line unchanged. -/
theorem c9_no_split_identity (line : List Char) (st : State)
    (h : ∀ j ∈ transIndices line line 0 (initLoop st), j = 0) :
    (process_line line st).1 = [line] := by
  have h1 : (scanLine line st).processed_line = [] :=
    (scanAux_no_pos_trans line line 0 (initLoop st) h rfl).1
  have h2 : (scanLine line st).start = 0 :=
    (scanAux_no_pos_trans line line 0 (initLoop st) h rfl).2
  show (scanLine line st).processed_line ++ [line.drop (scanLine line st).start] = [line]
  rw [h1, h2, List.drop_zero, List.nil_append]

/-- Claim C9 witness: instantiated at the line `(ab)` (its only 0→1
transition is its leading parenthesis, at index 0). -/
theorem c9_witness :
    (∀ j ∈ transIndices ['(', 'a', 'b', ')'] ['(', 'a', 'b', ')'] 0 (initLoop ⟨false, 0⟩),
      j = 0) ∧
    (process_line ['(', 'a', 'b', ')'] ⟨false, 0⟩).1 = [['(', 'a', 'b', ')']] :=
  ⟨by decide, c9_no_split_identity ['(', 'a', 'b', ')'] ⟨false, 0⟩ (by decide)⟩
